import Mathlib

/-!
Verification development for the census-data-pipeline repository.

The Python source is shallowly embedded: pandas numeric cells are modelled by
the type `PF` (an IEEE-754 value with an exact rational finite part — the
claims under study only distinguish NaN, the infinities, zero and exact
sentinel integers, for which exact rational arithmetic agrees with float
arithmetic), DataFrames by ordered association lists of named columns, and
Python dict / DataFrame mutation by an explicit heap (a list of values
addressed by index).
-/

namespace Census

/-- Model of a pandas numeric cell: NaN (the missing marker), +inf, -inf,
or a finite value with exact rational magnitude. -/
inductive PF where
  | nan : PF
  | inf : PF
  | ninf : PF
  | val : ℚ → PF
deriving DecidableEq

/-- IEEE-style addition on `PF`. -/
def pfAdd : PF → PF → PF
  | .nan, _ => .nan
  | _, .nan => .nan
  | .val a, .val b => .val (a + b)
  | .val _, .inf => .inf
  | .val _, .ninf => .ninf
  | .inf, .val _ => .inf
  | .ninf, .val _ => .ninf
  | .inf, .inf => .inf
  | .ninf, .ninf => .ninf
  | .inf, .ninf => .nan
  | .ninf, .inf => .nan

/-- IEEE-style subtraction on `PF`. -/
def pfSub : PF → PF → PF
  | .nan, _ => .nan
  | _, .nan => .nan
  | .val a, .val b => .val (a - b)
  | .val _, .inf => .ninf
  | .val _, .ninf => .inf
  | .inf, .val _ => .inf
  | .ninf, .val _ => .ninf
  | .inf, .inf => .nan
  | .ninf, .ninf => .nan
  | .inf, .ninf => .inf
  | .ninf, .inf => .ninf

/-- IEEE-style multiplication on `PF` (inf * 0 = NaN). -/
def pfMul : PF → PF → PF
  | .nan, _ => .nan
  | _, .nan => .nan
  | .val a, .val b => .val (a * b)
  | .inf, .val b => if 0 < b then .inf else if b < 0 then .ninf else .nan
  | .val a, .inf => if 0 < a then .inf else if a < 0 then .ninf else .nan
  | .ninf, .val b => if 0 < b then .ninf else if b < 0 then .inf else .nan
  | .val a, .ninf => if 0 < a then .ninf else if a < 0 then .inf else .nan
  | .inf, .inf => .inf
  | .inf, .ninf => .ninf
  | .ninf, .inf => .ninf
  | .ninf, .ninf => .inf

/-- IEEE-style division on `PF`: x/0 is ±inf for nonzero finite x, 0/0 is
NaN, finite/±inf is 0 (the data zero is a positive zero, as produced by the
upstream numeric coercion). -/
def pfDiv : PF → PF → PF
  | .nan, _ => .nan
  | _, .nan => .nan
  | .val a, .val b =>
      if b = 0 then (if 0 < a then .inf else if a < 0 then .ninf else .nan)
      else .val (a / b)
  | .val _, .inf => .val 0
  | .val _, .ninf => .val 0
  | .inf, .val b => if b < 0 then .ninf else .inf
  | .ninf, .val b => if b < 0 then .inf else .ninf
  | .inf, .inf => .nan
  | .inf, .ninf => .nan
  | .ninf, .inf => .nan
  | .ninf, .ninf => .nan

/-- Total comparison used for sorting/min/max of non-NaN values. -/
def pfLeB : PF → PF → Bool
  | .nan, _ => true
  | _, .nan => false
  | .ninf, _ => true
  | _, .ninf => false
  | .val a, .val b => a ≤ b
  | .val _, .inf => true
  | .inf, .val _ => false
  | .inf, .inf => true

/-- Is the cell a non-missing value? -/
def notNan : PF → Bool
  | .nan => false
  | _ => true

/-- Drop NaN entries, as pandas reductions do (skipna). -/
def dropNan (l : List PF) : List PF := l.filter notNan

/-- `Series.min` (skipna; NaN on an all-NaN/empty series). -/
def seriesMin (l : List PF) : PF :=
  match dropNan l with
  | [] => .nan
  | h :: t => t.foldl (fun a b => if pfLeB a b then a else b) h

/-- `Series.max` (skipna; NaN on an all-NaN/empty series). -/
def seriesMax (l : List PF) : PF :=
  match dropNan l with
  | [] => .nan
  | h :: t => t.foldl (fun a b => if pfLeB a b then b else a) h

/-- Sum of a series of cells. -/
def seriesSum (l : List PF) : PF := l.foldl pfAdd (.val 0)

/-- `Series.mean` (skipna; 0/0 = NaN on an empty series). -/
def seriesMean (l : List PF) : PF :=
  let nn := dropNan l
  pfDiv (seriesSum nn) (.val nn.length)

/-- Square root on `PF`. `Rat.sqrt` stands in for float sqrt: it is exact at
0 and on perfect squares and positive on positive input, which are the only
facts the development uses (no theorem depends on the magnitude of a
standard deviation). -/
def pfSqrt : PF → PF
  | .nan => .nan
  | .inf => .inf
  | .ninf => .nan
  | .val q => if q < 0 then .nan else .val (Rat.sqrt q)

/-- `Series.std` with pandas' default ddof=1 (NaN on fewer than two
non-missing values). -/
def seriesStd (l : List PF) : PF :=
  let nn := dropNan l
  if nn.length ≤ 1 then .nan
  else
    let m := seriesMean nn
    let sq := nn.map (fun x => pfMul (pfSub x m) (pfSub x m))
    pfSqrt (pfDiv (seriesSum sq) (.val (nn.length - 1)))

/-- `Series.quantile` with pandas' default linear interpolation (skipna). -/
def seriesQuantile (l : List PF) (q : ℚ) : PF :=
  let nn := (dropNan l).mergeSort pfLeB
  match nn with
  | [] => .nan
  | _ :: _ =>
    let n := nn.length
    let pos : ℚ := q * ((n : ℚ) - 1)
    let lo : Nat := pos.floor.toNat
    let frac : ℚ := pos - pos.floor
    let vlo := nn.getD lo .nan
    if frac = 0 then vlo
    else pfAdd vlo (pfMul (pfSub (nn.getD (lo + 1) .nan) vlo) (.val frac))

/-- `Series.median` = 0.5-quantile. -/
def seriesMedian (l : List PF) : PF := seriesQuantile l (1 / 2)

/-- A numeric DataFrame: named columns in order, each a list of cells.
(The claims under study concern the numeric columns only.) -/
abbrev Frame := List (String × List PF)

/-- Column lookup, `df[c]` read access (None when the column is absent,
which in pandas raises `KeyError`). -/
def getCol (df : Frame) (c : String) : Option (List PF) := df.lookup c

/-- Number of rows (length of the first column). -/
def numRows (df : Frame) : Nat :=
  match df with
  | [] => 0
  | p :: _ => p.2.length

/-- `df[c] = v` write access: overwrite an existing column in place,
otherwise append the new column at the end (pandas semantics). -/
def setCol (df : Frame) (c : String) (v : List PF) : Frame :=
  if (df.lookup c).isSome then df.map (fun p => if p.1 = c then (p.1, v) else p)
  else df ++ [(c, v)]

/-- Cell access: column `c`, row `i`. -/
def getCell (df : Frame) (c : String) (i : Nat) : Option PF :=
  (getCol df c).bind (fun l => l.get? i)

/-- The five Census sentinel missing-data codes
(`DataTransformer.MISSING_CODES`). -/
def MISSING_CODES : List ℚ :=
  [-666666666, -999999999, -888888888, -222222222, -333333333]

/-- `df.replace(code, np.nan)`: every cell exactly equal to `code` becomes
NaN; every other cell is untouched. -/
def replaceVal (df : Frame) (code : ℚ) : Frame :=
  df.map (fun p => (p.1, p.2.map (fun x => if x = .val code then .nan else x)))

/-- `df.fillna(v)`: every NaN cell becomes `v`. -/
def fillna (df : Frame) (v : PF) : Frame :=
  df.map (fun p => (p.1, p.2.map (fun x => match x with | .nan => v | y => y)))

/-- `df.dropna()`: keep only the rows with no NaN in any column. -/
def dropna (df : Frame) : Frame :=
  let keep := (List.range (numRows df)).filter
    (fun i => df.all (fun p => notNan (p.2.getD i .nan)))
  df.map (fun p => (p.1, keep.filterMap (fun i => p.2.get? i)))

/-- `DataTransformer.clean_missing_values` (transformers.py:42-72): replace
each sentinel code everywhere, then apply the strategy. `fillna(None)`
raises in pandas, hence the error branch. -/
def clean_missing_values (df : Frame) (strategy : String)
    (fill_value : Option PF) : Except String Frame :=
  let df := MISSING_CODES.foldl replaceVal df
  if strategy = "nan" then .ok df
  else if strategy = "fill" then
    match fill_value with
    | some v => .ok (fillna df v)
    | none => .error "Must specify a fill value"
  else if strategy = "drop" then .ok (dropna df)
  else .ok df

/-- Spec-side description of one sanitization step on a single cell: a cell
exactly equal to one of the five sentinel codes becomes the missing marker,
any other cell is unchanged. -/
def sanitizeCellSpec (x : PF) : PF :=
  if MISSING_CODES.any (fun c => x = .val c) then .nan else x

/-- Spec-side description of sanitization of a whole table. -/
def sanitizeSpec (df : Frame) : Frame :=
  df.map (fun p => (p.1, p.2.map sanitizeCellSpec))

/-- Replace ±inf cells of a series by `r`, everything else untouched
(`rate.replace([np.inf, -np.inf], r)`). -/
def replaceInf (l : List PF) (r : PF) : List PF :=
  l.map (fun x => match x with | .inf => r | .ninf => r | y => y)

/-- `DataTransformer.calculate_rates` (transformers.py:74-111): computes
(numerator/denominator)*per elementwise, then handles ±inf according to
`handle_zero` ("nan" → NaN, "zero" → 0, anything else leaves them), and
stores the series under `rate_name`. `KeyError` when a column is absent. -/
def calculate_rates (df : Frame) (numerator denominator rate_name : String)
    (per : ℤ) (handle_zero : String) : Except String Frame :=
  match getCol df numerator with
  | none => .error "KeyError"
  | some a =>
    match getCol df denominator with
    | none => .error "KeyError"
    | some b =>
      let rate := (List.zipWith pfDiv a b).map (fun x => pfMul x (.val (per : ℚ)))
      let rate := if handle_zero = "nan" then replaceInf rate .nan
                  else if handle_zero = "zero" then replaceInf rate (.val 0)
                  else rate
      .ok (setCol df rate_name rate)

/-- `DataTransformer.normalize_column` (transformers.py:152-188): min-max,
z-score or robust scaling into `output_col` (default `column ++
"_normalized"`); any other method falls through every branch and the frame
is returned untouched. The only failure is `KeyError` on a missing column;
no degenerate-denominator check exists in the source. -/
def normalize_column (df : Frame) (column : String) (method : String)
    (output_col : Option String) : Except String Frame :=
  let out := output_col.getD (column ++ "_normalized")
  match getCol df column with
  | none => .error "KeyError"
  | some values =>
    if method = "minmax" then
      let mn := seriesMin values
      let mx := seriesMax values
      .ok (setCol df out (values.map (fun v => pfDiv (pfSub v mn) (pfSub mx mn))))
    else if method = "zscore" then
      let m := seriesMean values
      let s := seriesStd values
      .ok (setCol df out (values.map (fun v => pfDiv (pfSub v m) s)))
    else if method = "robust" then
      let med := seriesMedian values
      let q1 := seriesQuantile values (1 / 4)
      let q3 := seriesQuantile values (3 / 4)
      let iqr := pfSub q3 q1
      .ok (setCol df out (values.map (fun v => pfDiv (pfSub v med) iqr)))
    else .ok df

/-- The normalization loop of `create_index` (transformers.py:212-215). -/
def normLoop (df : Frame) (cols : List String) : Except String Frame :=
  match cols with
  | [] => .ok df
  | c :: rest =>
    match normalize_column df c "minmax" none with
    | .ok df' => normLoop df' rest
    | .error e => .error e

/-- The weighted-sum loop of `create_index` (transformers.py:217-227):
`index_values += df[col_use] * (weight / total_weight)`, with the weight
ratio as a float division (±inf/NaN when the total weight is zero). -/
def indexLoop (df : Frame) (acc : List PF) (components : List (String × ℚ))
    (normalize : Bool) (total : ℚ) : Except String (List PF) :=
  match components with
  | [] => .ok acc
  | (c, w) :: rest =>
    let col_use := if normalize then c ++ "_normalized" else c
    match getCol df col_use with
    | none => .error "KeyError"
    | some v =>
      let ratio := pfDiv (.val w) (.val total)
      indexLoop df (List.zipWith pfAdd acc (v.map (fun x => pfMul x ratio)))
        rest normalize total

/-- `DataTransformer.create_index` (transformers.py:190-231). -/
def create_index (df : Frame) (components : List (String × ℚ))
    (index_name : String) (normalize : Bool) : Except String Frame :=
  match (if normalize then normLoop df (components.map (fun p => p.1)) else .ok df) with
  | .error e => .error e
  | .ok df' =>
    let total := (components.map (fun p => p.2)).sum
    match indexLoop df' (List.replicate (numRows df') (.val 0)) components
        normalize total with
    | .error e => .error e
    | .ok v => .ok (setCol df' index_name v)

/-! ### Heap model for DataFrame objects

Python DataFrames are heap objects passed by reference. A heap is a list of
frames addressed by index; `df.copy()` allocates, `df[c] = v` writes in
place. Each transformer method starts with `df = df.copy()` and performs
its writes on the copy only; the wrappers below make that effect explicit
so that non-mutation of the caller's frame is a provable statement. -/

/-- The DataFrame heap. -/
abbrev FHeap := List Frame

/-- Dereference. -/
def readF (h : FHeap) (r : Nat) : Frame := h.getD r []

/-- Allocate a fresh frame (`df.copy()` and constructor calls). -/
def allocF (h : FHeap) (f : Frame) : FHeap × Nat := (h ++ [f], h.length)

/-- In-place write to an existing object. -/
def writeF (h : FHeap) (r : Nat) (f : Frame) : FHeap := h.set r f

/-- Heap-level `clean_missing_values`: copy the argument frame, then the
pure computation determines the returned object's final value. On error the
input frame is untouched. -/
def clean_missing_values_h (h : FHeap) (r : Nat) (strategy : String)
    (fill_value : Option PF) : FHeap × Except String Nat :=
  let df := readF h r
  let (h1, r1) := allocF h df
  match clean_missing_values df strategy fill_value with
  | .ok res => (writeF h1 r1 res, .ok r1)
  | .error e => (h1, .error e)

/-- Heap-level `calculate_rates`: `df = df.copy()`, then
`df[rate_name] = rate` writes the copy in place. -/
def calculate_rates_h (h : FHeap) (r : Nat)
    (numerator denominator rate_name : String) (per : ℤ)
    (handle_zero : String) : FHeap × Except String Nat :=
  let df := readF h r
  let (h1, r1) := allocF h df
  match calculate_rates df numerator denominator rate_name per handle_zero with
  | .ok res => (writeF h1 r1 res, .ok r1)
  | .error e => (h1, .error e)

/-- Heap-level `normalize_column`: `df = df.copy()`, then
`df[output_col] = ...` writes the copy in place (no write at all for an
unrecognized method). -/
def normalize_column_h (h : FHeap) (r : Nat) (column method : String)
    (output_col : Option String) : FHeap × Except String Nat :=
  let df := readF h r
  let (h1, r1) := allocF h df
  match normalize_column df column method output_col with
  | .ok res => (writeF h1 r1 res, .ok r1)
  | .error e => (h1, .error e)

/-- Heap-level normalization loop of `create_index`: each iteration rebinds
`df` to the frame returned by `normalize_column` (itself a fresh copy). -/
def normLoop_h (h : FHeap) (r : Nat) (cols : List String) :
    FHeap × Except String Nat :=
  match cols with
  | [] => (h, .ok r)
  | c :: rest =>
    match normalize_column_h h r c "minmax" none with
    | (h', .ok r') => normLoop_h h' r' rest
    | (h', .error e) => (h', .error e)

/-- Heap-level `create_index` (transformers.py:190-231). -/
def create_index_h (h : FHeap) (r : Nat) (components : List (String × ℚ))
    (index_name : String) (normalize : Bool) : FHeap × Except String Nat :=
  let df := readF h r
  let (h1, r1) := allocF h df
  match (if normalize then normLoop_h h1 r1 (components.map (fun p => p.1))
         else (h1, .ok r1)) with
  | (h2, .error e) => (h2, .error e)
  | (h2, .ok r2) =>
    let dfc := readF h2 r2
    let total := (components.map (fun p => p.2)).sum
    match indexLoop dfc (List.replicate (numRows dfc) (.val 0)) components
        normalize total with
    | .error e => (h2, .error e)
    | .ok v => (writeF h2 r2 (setCol dfc index_name v), .ok r2)

/-! ### geography.py -/

/-- Python string slicing `s[a:b]` (for 0 ≤ a ≤ b within range). -/
def strSlice (s : String) (a b : Nat) : String :=
  ⟨(s.data.drop a).take (b - a)⟩

/-- `parse_geoid` (geography.py:219-240): fixed-offset slicing, each
component present exactly when the string is long enough; the result dict
is modelled by an association list in insertion order. -/
def parse_geoid (geoid : String) : List (String × String) :=
  (if 2 ≤ geoid.length then [("state", strSlice geoid 0 2)] else []) ++
  (if 5 ≤ geoid.length then [("county", strSlice geoid 2 5)] else []) ++
  (if 11 ≤ geoid.length then [("tract", strSlice geoid 5 11)] else []) ++
  (if 12 ≤ geoid.length then [("block_group", strSlice geoid 11 12)] else [])

/-- One `if component: geoid += component` step of `build_geoid`: `None`
and the empty string are falsy and skipped. -/
def appendIfTruthy (g : String) (o : Option String) : String :=
  match o with
  | some s => if s.length = 0 then g else g ++ s
  | none => g

/-- `build_geoid` (geography.py:243-269): plain concatenation of the truthy
components; the source performs no width validation and raises nothing. -/
def build_geoid (state : String) (county tract block_group : Option String) :
    String :=
  appendIfTruthy (appendIfTruthy (appendIfTruthy state county) tract)
    block_group

/-! ### census_pipeline.py -/

/-- The keys of `FIPS_CODES` (geography.py:20-34), in source order. -/
def FIPS_STATE_CODES : List String :=
  ["01", "02", "04", "05", "06", "08", "09", "10", "11", "12", "13", "15",
   "16", "17", "18", "19", "20", "21", "22", "23", "24", "25", "26", "27",
   "28", "29", "30", "31", "32", "33", "34", "35", "36", "37", "38", "39",
   "40", "41", "42", "44", "45", "46", "47", "48", "49", "50", "51", "53",
   "54", "55", "56", "72"]

/-- Column-name union in order of first appearance (pandas concat
alignment). -/
def dedupFirst (l : List String) : List String :=
  l.foldl (fun acc c => if acc.contains c then acc else acc ++ [c]) []

/-- Row-wise concatenation of frames with column alignment: a frame lacking
a column contributes NaN rows for it (`pd.concat(..., ignore_index=True)`). -/
def concatFrames (frames : List Frame) : Frame :=
  let cols := dedupFirst (frames.foldl (fun acc f => acc ++ f.map (fun p => p.1)) [])
  cols.map (fun c =>
    (c, frames.foldl (fun acc f =>
      acc ++ (match getCol f c with
              | some l => l
              | none => List.replicate (numRows f) PF.nan)) []))

/-- `pd.concat(objs, ignore_index=True)`: pandas raises
`ValueError("No objects to concatenate")` on an empty list. -/
def pd_concat (l : List Frame) : Except String Frame :=
  if l.isEmpty then .error "No objects to concatenate" else .ok (concatFrames l)

/-- `CensusPipeline.fetch_batch_states` (census_pipeline.py:279-322), with
the per-state fetch (`_fetch_single_state` through the transport layer)
abstracted as `fetchOne`. A per-state failure is caught at the task
boundary, logged and skipped; the successes are collected (completion order
is unspecified in the source; submission order is used here and no theorem
below depends on it) and handed to `pd.concat`. -/
def fetch_batch_states (states : List String)
    (fetchOne : String → Except String Frame) : Except String Frame :=
  let states := if states = ["*"] then FIPS_STATE_CODES else states
  let results := states.filterMap (fun s => (fetchOne s).toOption)
  pd_concat results

/-- A Python dict from variable codes to friendly names, as an association
list in insertion order. -/
abbrev VDict := List (String × String)

/-- The dict heap (dicts are mutable heap objects passed by reference). -/
abbrev DHeap := List VDict

/-- One step of `dict.update`: an existing key is overwritten in place
(keeping its position), a new key is appended. -/
def dictUpdateOne (d : VDict) (kv : String × String) : VDict :=
  if (d.lookup kv.1).isSome then d.map (fun p => if p.1 = kv.1 then kv else p)
  else d ++ [kv]

/-- `d.update(new)` over all pairs of `new` in order. -/
def dictUpdate (d new : VDict) : VDict := new.foldl dictUpdateOne d

/-- The margin-of-error companion code as the source computes it:
`v.replace("E", "M")` — pattern and replacement are single characters, so
Python str.replace is exactly character-wise substitution of every
occurrence of 'E'. -/
def moeCode (v : String) : String :=
  ⟨v.data.map (fun c => if c = 'E' then 'M' else c)⟩

/-- `v.endswith("E")`. -/
def endsWithE (v : String) : Bool := v.data.getLast? = some 'E'

/-- The `moe_vars` dict comprehension of fetch_acs5
(census_pipeline.py:143-147). -/
def moeVars (d : VDict) : VDict :=
  (d.filter (fun p => endsWithE p.1)).map (fun p => (moeCode p.1, p.2 ++ "_moe"))

/-- The variable-map phase of `CensusPipeline.fetch_acs5`
(census_pipeline.py:135-151): a list argument is normalized into a fresh
identity dict, while a dict argument is aliased (`var_dict = variables`,
no copy); when `include_moe` is set, `var_dict.update(moe_vars)` mutates
that dict in place. Returns the heap and the reference held by `var_dict`. -/
def fetch_acs5_vars (h : DHeap) (vars : List String ⊕ Nat)
    (include_moe : Bool) : DHeap × Nat :=
  let (h1, rd) :=
    match vars with
    | .inl lst => (h ++ [lst.map (fun v => (v, v))], h.length)
    | .inr r => (h, r)
  if include_moe then
    let d := h1.getD rd []
    (h1.set rd (dictUpdate d (moeVars d)), rd)
  else (h1, rd)

/-! ### Helper lemmas -/

theorem str_data_inj {s t : String} (h : s.data = t.data) : s = t :=
  congrArg String.mk h

theorem str_length_data (s : String) : s.length = s.data.length := rfl

theorem strSlice_first (x y : String) : strSlice (x ++ y) 0 x.length = x := by
  apply str_data_inj
  show (((x ++ y).data.drop 0).take (x.length - 0)) = x.data
  rw [String.data_append, List.drop_zero, Nat.sub_zero, str_length_data,
    List.take_left]

theorem strSlice_mid (x y z : String) :
    strSlice (x ++ y ++ z) x.length (x.length + y.length) = y := by
  apply str_data_inj
  show ((x ++ y ++ z).data.drop x.length).take (x.length + y.length - x.length)
      = y.data
  have hd : (x ++ y ++ z).data = x.data ++ (y.data ++ z.data) := by
    rw [String.data_append, String.data_append, List.append_assoc]
  rw [hd, Nat.add_sub_cancel_left, str_length_data x, List.drop_left,
    str_length_data y, List.take_left]

theorem strSlice_end (x y : String) :
    strSlice (x ++ y) x.length (x.length + y.length) = y := by
  apply str_data_inj
  show ((x ++ y).data.drop x.length).take (x.length + y.length - x.length)
      = y.data
  rw [String.data_append, Nat.add_sub_cancel_left, str_length_data x,
    List.drop_left, str_length_data y, List.take_length]

theorem str_append_assoc (a b c : String) : a ++ b ++ c = a ++ (b ++ c) := by
  apply str_data_inj
  simp [String.data_append, List.append_assoc]

theorem appendIfTruthy_some (g : String) {s : String} (h : s.length ≠ 0) :
    appendIfTruthy g (some s) = g ++ s := by
  simp [appendIfTruthy, h]

theorem appendIfTruthy_none (g : String) : appendIfTruthy g none = g := rfl

theorem strSlice_self (x : String) : strSlice x 0 x.length = x := by
  apply str_data_inj
  show (x.data.drop 0).take (x.length - 0) = x.data
  rw [List.drop_zero, Nat.sub_zero, str_length_data, List.take_length]

/-! ### Claim theorems -/

/-- C3: for every geography level (state, county, tract, block group) and
every tuple of non-null components of the correct fixed widths (state 2,
county 3, tract 6, block group 1), `parse_geoid (build_geoid ...)` returns
exactly the originally supplied components and nothing else. -/
theorem parse_build_geoid_roundtrip (s c t b : String) (hs : s.length = 2)
    (hc : c.length = 3) (ht : t.length = 6) (hb : b.length = 1) :
    parse_geoid (build_geoid s none none none) = [("state", s)] ∧
    parse_geoid (build_geoid s (some c) none none) =
      [("state", s), ("county", c)] ∧
    parse_geoid (build_geoid s (some c) (some t) none) =
      [("state", s), ("county", c), ("tract", t)] ∧
    parse_geoid (build_geoid s (some c) (some t) (some b)) =
      [("state", s), ("county", c), ("tract", t), ("block_group", b)] := by
  have hc0 : c.length ≠ 0 := by omega
  have ht0 : t.length ≠ 0 := by omega
  have hb0 : b.length ≠ 0 := by omega
  refine ⟨?_, ?_, ?_, ?_⟩
  · have hbuild : build_geoid s none none none = s := rfl
    have h1 : strSlice s 0 2 = s := by
      rw [show (2 : Nat) = s.length from hs.symm]
      exact strSlice_self s
    simp [hbuild, parse_geoid, hs, h1]
  · have hbuild : build_geoid s (some c) none none = s ++ c := by
      simp [build_geoid, appendIfTruthy_some _ hc0, appendIfTruthy_none]
    have hlen : (s ++ c).length = 5 := by
      rw [String.length_append, hs, hc]
    have h1 : strSlice (s ++ c) 0 2 = s := by
      rw [show (2 : Nat) = s.length from hs.symm]
      exact strSlice_first s c
    have h2 : strSlice (s ++ c) 2 5 = c := by
      rw [show (2 : Nat) = s.length from hs.symm,
        show (5 : Nat) = s.length + c.length by omega]
      exact strSlice_end s c
    simp [hbuild, parse_geoid, hlen, h1, h2]
  · have hbuild : build_geoid s (some c) (some t) none = s ++ c ++ t := by
      simp [build_geoid, appendIfTruthy_some _ hc0, appendIfTruthy_some _ ht0,
        appendIfTruthy_none]
    have hlen : (s ++ c ++ t).length = 11 := by
      rw [String.length_append, String.length_append, hs, hc, ht]
    have h1 : strSlice (s ++ c ++ t) 0 2 = s := by
      rw [str_append_assoc, show (2 : Nat) = s.length from hs.symm]
      exact strSlice_first s (c ++ t)
    have h2 : strSlice (s ++ c ++ t) 2 5 = c := by
      rw [show (2 : Nat) = s.length from hs.symm,
        show (5 : Nat) = s.length + c.length by omega]
      exact strSlice_mid s c t
    have h3 : strSlice (s ++ c ++ t) 5 11 = t := by
      rw [show (5 : Nat) = (s ++ c).length by rw [String.length_append]; omega,
        show (11 : Nat) = (s ++ c).length + t.length by
          rw [String.length_append]; omega]
      exact strSlice_end (s ++ c) t
    simp [hbuild, parse_geoid, hlen, h1, h2, h3]
  · have hbuild : build_geoid s (some c) (some t) (some b) = s ++ c ++ t ++ b := by
      simp [build_geoid, appendIfTruthy_some _ hc0, appendIfTruthy_some _ ht0,
        appendIfTruthy_some _ hb0]
    have hlen : (s ++ c ++ t ++ b).length = 12 := by
      rw [String.length_append, String.length_append, String.length_append,
        hs, hc, ht, hb]
    have h1 : strSlice (s ++ c ++ t ++ b) 0 2 = s := by
      rw [str_append_assoc (s ++ c) t b, str_append_assoc s c (t ++ b),
        show (2 : Nat) = s.length from hs.symm]
      exact strSlice_first s (c ++ (t ++ b))
    have h2 : strSlice (s ++ c ++ t ++ b) 2 5 = c := by
      rw [str_append_assoc (s ++ c) t b,
        show (2 : Nat) = s.length from hs.symm,
        show (5 : Nat) = s.length + c.length by omega]
      exact strSlice_mid s c (t ++ b)
    have h3 : strSlice (s ++ c ++ t ++ b) 5 11 = t := by
      rw [show (5 : Nat) = (s ++ c).length by rw [String.length_append]; omega,
        show (11 : Nat) = (s ++ c).length + t.length by
          rw [String.length_append]; omega]
      exact strSlice_mid (s ++ c) t b
    have h4 : strSlice (s ++ c ++ t ++ b) 11 12 = b := by
      rw [show (11 : Nat) = (s ++ c ++ t).length by
          rw [String.length_append, String.length_append]; omega,
        show (12 : Nat) = (s ++ c ++ t).length + b.length by
          rw [String.length_append, String.length_append]; omega]
      exact strSlice_end (s ++ c ++ t) b
    simp [hbuild, parse_geoid, hlen, h1, h2, h3, h4]

/-- C3 witness: the round-trip at the concrete Ohio block group
39-001-990200-1. -/
theorem parse_build_geoid_roundtrip_witness :
    parse_geoid (build_geoid "39" none none none) = [("state", "39")] ∧
    parse_geoid (build_geoid "39" (some "001") none none) =
      [("state", "39"), ("county", "001")] ∧
    parse_geoid (build_geoid "39" (some "001") (some "990200") none) =
      [("state", "39"), ("county", "001"), ("tract", "990200")] ∧
    parse_geoid (build_geoid "39" (some "001") (some "990200") (some "1")) =
      [("state", "39"), ("county", "001"), ("tract", "990200"),
        ("block_group", "1")] :=
  parse_build_geoid_roundtrip "39" "001" "990200" "1" (by decide) (by decide)
    (by decide) (by decide)

/-- C6 counterexample: `build_geoid` does not fail on components of the
wrong width — a 3-character state and 2-character county are concatenated
into the malformed identifier "12345", which then even parses into
components different from the ones supplied. -/
theorem build_geoid_wrong_width_counterexample :
    build_geoid "123" (some "45") none none = "12345" ∧
    parse_geoid (build_geoid "123" (some "45") none none) =
      [("state", "12"), ("county", "345")] := by decide

/-- C6 amended: `build_geoid` performs no width validation and cannot fail:
for any supplied components (with the optional ones non-empty, hence
truthy) it returns the plain concatenation, whatever the lengths are. -/
theorem build_geoid_is_plain_concat (s c t b : String) (hc : c.length ≠ 0)
    (ht : t.length ≠ 0) (hb : b.length ≠ 0) :
    build_geoid s none none none = s ∧
    build_geoid s (some c) none none = s ++ c ∧
    build_geoid s (some c) (some t) none = s ++ c ++ t ∧
    build_geoid s (some c) (some t) (some b) = s ++ c ++ t ++ b := by
  refine ⟨rfl, ?_, ?_, ?_⟩ <;>
    simp [build_geoid, appendIfTruthy_some _ hc, appendIfTruthy_some _ ht,
      appendIfTruthy_some _ hb, appendIfTruthy_none]

/-- C6 amended witness: the concatenation at wrong-width components
(3-character state, 2-character county, 7-character tract, 2-character
block group) — all accepted, no failure. -/
theorem build_geoid_is_plain_concat_witness :
    build_geoid "123" none none none = "123" ∧
    build_geoid "123" (some "45") none none = "123" ++ "45" ∧
    build_geoid "123" (some "45") (some "6789012") none =
      "123" ++ "45" ++ "6789012" ∧
    build_geoid "123" (some "45") (some "6789012") (some "00") =
      "123" ++ "45" ++ "6789012" ++ "00" :=
  build_geoid_is_plain_concat "123" "45" "6789012" "00" (by decide) (by decide)
    (by decide)

/-- C1 counterexample: a batch in which the only region's fetch fails does
not return an empty table — the collected results list is empty and
`pd.concat` raises `ValueError("No objects to concatenate")`, so
`fetch_batch_states` itself raises. -/
theorem fetch_batch_states_all_fail_raises :
    fetch_batch_states ["39"] (fun _ => Except.error "TransportError") =
      Except.error "No objects to concatenate" := rfl

/-- C1 amended: each per-region failure is caught, logged and excluded, and
`fetch_batch_states` returns a (concatenated) table exactly when at least
one region's fetch succeeds; when every task fails (or no region is
requested) the final `pd.concat` raises instead of returning an empty
table. -/
theorem fetch_batch_states_ok_iff (states : List String)
    (fetchOne : String → Except String Frame) :
    (∃ f, fetch_batch_states states fetchOne = Except.ok f) ↔
      ∃ s ∈ (if states = ["*"] then FIPS_STATE_CODES else states),
        ∃ f, fetchOne s = Except.ok f := by
  have hopt : ∀ e : Except String Frame,
      e.toOption = none ↔ ∀ f, e ≠ Except.ok f := by
    intro e; cases e <;> simp [Except.toOption]
  set ss := (if states = ["*"] then FIPS_STATE_CODES else states) with hss
  set L := ss.filterMap (fun s => (fetchOne s).toOption) with hL
  have hfb : fetch_batch_states states fetchOne = pd_concat L := rfl
  have main : L = [] ↔ ¬ ∃ s ∈ ss, ∃ f, fetchOne s = Except.ok f := by
    rw [hL, List.filterMap_eq_nil]
    constructor
    · rintro hall ⟨s, hs, f, hf⟩
      have hnone := hall s hs
      rw [hf] at hnone
      simp [Except.toOption] at hnone
    · intro hno s hs
      rw [hopt]
      intro f hf
      exact hno ⟨s, hs, f, hf⟩
  have h1 : ∀ M : List Frame, (∃ f, pd_concat M = Except.ok f) ↔ M ≠ [] := by
    intro M
    unfold pd_concat
    by_cases h : M.isEmpty
    · simp [h, List.isEmpty_iff.mp h]
    · have hne : M ≠ [] := by simpa [List.isEmpty_iff] using h
      simp [h, hne]
  rw [hfb, h1, ne_eq, main, not_not]

theorem lookup_singleton_ne {k a v : String} (h : k ≠ a) :
    List.lookup k [(a, v)] = none := by
  simp [List.lookup_cons, beq_eq_false_iff_ne.mpr h]

theorem dictUpdate_fresh (new : VDict) : ∀ d : VDict,
    (∀ p ∈ new, d.lookup p.1 = none) → ((new.map Prod.fst).Nodup) →
    dictUpdate d new = d ++ new := by
  induction new with
  | nil => intro d _ _; simp [dictUpdate]
  | cons kv rest ih =>
    intro d hfresh hnodup
    unfold dictUpdate
    rw [List.foldl_cons]
    have h1 : d.lookup kv.1 = none := hfresh kv (by simp)
    have hupd : dictUpdateOne d kv = d ++ [kv] := by
      simp [dictUpdateOne, h1]
    rw [hupd]
    rw [List.map_cons, List.nodup_cons] at hnodup
    have hkv : kv.1 ∉ rest.map Prod.fst := hnodup.1
    have hfresh' : ∀ p ∈ rest, (d ++ [kv]).lookup p.1 = none := by
      intro p hp
      rw [List.lookup_append, hfresh p (by simp [hp])]
      have hne : p.1 ≠ kv.1 := by
        intro he
        exact hkv (he ▸ List.mem_map_of_mem Prod.fst hp)
      cases kv with
      | mk a v => simp [lookup_singleton_ne hne]
    have hnodup' : (rest.map Prod.fst).Nodup := hnodup.2
    rw [show List.foldl dictUpdateOne (d ++ [kv]) rest =
        dictUpdate (d ++ [kv]) rest from rfl,
      ih (d ++ [kv]) hfresh' hnodup', List.append_assoc, List.singleton_append]

/-- C7 counterexample: for a variable code with a non-trailing "E"
(race-iteration tables such as B01001E exist upstream), the companion code
is NOT obtained by substituting the trailing suffix: `v.replace("E", "M")`
replaces every occurrence, producing "B01001M_001M" instead of
"B01001E_001M", and the trailing-substitution code is absent from the
expanded map. -/
theorem moe_expansion_not_suffix_counterexample :
    (fetch_acs5_vars [[("B01001E_001E", "nhpi_total")]] (Sum.inr 0)
        true).1.getD 0 [] =
      [("B01001E_001E", "nhpi_total"), ("B01001M_001M", "nhpi_total_moe")] ∧
    ((fetch_acs5_vars [[("B01001E_001E", "nhpi_total")]] (Sum.inr 0)
        true).1.getD 0 []).lookup "B01001E_001M" = none := by decide

/-- C7 amended: for every entry whose code ends in "E", margin-of-error
expansion adds exactly one companion entry whose code is the original code
with EVERY occurrence of "E" replaced by "M" (`v.replace("E", "M")`; for
codes whose only "E" is the trailing estimate suffix this coincides with
trailing-suffix substitution) and whose friendly name is the original name
with "_moe" appended; entries whose code does not end in "E" gain no
companion. Stated for companion codes that are fresh and pairwise distinct,
where the expanded dict is the original with the companion entries
appended. -/
theorem fetch_acs5_moe_expansion (d : VDict)
    (hfresh : ∀ p ∈ moeVars d, d.lookup p.1 = none)
    (hnodup : ((moeVars d).map Prod.fst).Nodup) :
    (fetch_acs5_vars [d] (Sum.inr 0) true).1.getD 0 [] =
      d ++ (d.filter (fun p => endsWithE p.1)).map
        (fun p => (moeCode p.1, p.2 ++ "_moe")) := by
  have h0 : (fetch_acs5_vars [d] (Sum.inr 0) true).1.getD 0 [] =
      dictUpdate d (moeVars d) := rfl
  rw [h0, dictUpdate_fresh (moeVars d) d hfresh hnodup]
  rfl

/-- C7 witness: the claim's own scenario,
`{"B01003_001E": "total_population"}` expanding to
`{"B01003_001E": "total_population", "B01003_001M": "total_population_moe"}`
(here "E" occurs only at the end, so global replacement and suffix
substitution coincide). -/
theorem fetch_acs5_moe_expansion_witness :
    (fetch_acs5_vars [[("B01003_001E", "total_population")]] (Sum.inr 0)
        true).1.getD 0 [] =
      [("B01003_001E", "total_population")] ++
        (([("B01003_001E", "total_population")] : VDict).filter
            (fun p => endsWithE p.1)).map
          (fun p => (moeCode p.1, p.2 ++ "_moe")) :=
  fetch_acs5_moe_expansion [("B01003_001E", "total_population")]
    (by decide) (by decide)

/-- C8 counterexample: a caller passing the dict
`{"B01003_001E": "total_population"}` with include_moe=True finds their own
dict changed afterwards — `var_dict = variables` aliases the argument and
`var_dict.update(moe_vars)` mutates it in place. -/
theorem fetch_acs5_mutates_caller_dict :
    (fetch_acs5_vars [[("B01003_001E", "total_population")]] (Sum.inr 0)
        true).1.getD 0 [] ≠ [("B01003_001E", "total_population")] := by decide

/-- C8 amended: with include_moe=True, a dict argument is aliased, not
copied: `fetch_acs5` keeps the caller's reference and updates the caller's
dict in place with the companion entries; only a list argument (normalized
into a fresh dict) leaves every existing object unchanged. -/
theorem fetch_acs5_vars_aliasing (h : DHeap) (lst : List String) (r : Nat)
    (hr : r < h.length) :
    (∀ i, i < h.length →
      (fetch_acs5_vars h (Sum.inl lst) true).1.getD i [] = h.getD i []) ∧
    (fetch_acs5_vars h (Sum.inr r) true).2 = r ∧
    (fetch_acs5_vars h (Sum.inr r) true).1.getD r [] =
      dictUpdate (h.getD r []) (moeVars (h.getD r [])) := by
  refine ⟨?_, rfl, ?_⟩
  · intro i hi
    show ((h ++ [lst.map (fun v => (v, v))]).set h.length _).getD i []
        = h.getD i []
    rw [List.getD_eq_getElem?_getD, List.getD_eq_getElem?_getD,
      List.getElem?_set_ne (show h.length ≠ i by omega),
      List.getElem?_append]
    simp [hi]
  · show (h.set r (dictUpdate (h.getD r []) (moeVars (h.getD r [])))).getD r []
        = dictUpdate (h.getD r []) (moeVars (h.getD r []))
    rw [List.getD_eq_getElem?_getD, List.getElem?_set_self hr]
    rfl

/-- C8 amended witness: the aliasing statement at a concrete one-dict heap. -/
theorem fetch_acs5_vars_aliasing_witness :
    (∀ i, i < ([[("B01003_001E", "total_population")]] : DHeap).length →
      (fetch_acs5_vars [[("B01003_001E", "total_population")]]
          (Sum.inl ["B19013_001E"]) true).1.getD i []
        = ([[("B01003_001E", "total_population")]] : DHeap).getD i []) ∧
    (fetch_acs5_vars [[("B01003_001E", "total_population")]] (Sum.inr 0)
        true).2 = 0 ∧
    (fetch_acs5_vars [[("B01003_001E", "total_population")]] (Sum.inr 0)
        true).1.getD 0 [] =
      dictUpdate (([[("B01003_001E", "total_population")]] : DHeap).getD 0 [])
        (moeVars (([[("B01003_001E", "total_population")]] : DHeap).getD 0 [])) :=
  fetch_acs5_vars_aliasing [[("B01003_001E", "total_population")]]
    ["B19013_001E"] 0 (by decide)

theorem replaceVal_foldl (codes : List ℚ) : ∀ df : Frame,
    codes.foldl replaceVal df = df.map (fun p => (p.1, p.2.map
      (fun x => codes.foldl (fun y c => if y = PF.val c then PF.nan else y) x))) := by
  induction codes with
  | nil => intro df; simp
  | cons c cs ih =>
    intro df
    rw [List.foldl_cons, ih (replaceVal df c)]
    unfold replaceVal
    rw [List.map_map]
    apply List.map_congr_left
    intro p _
    show (p.1, (p.2.map fun x => if x = PF.val c then PF.nan else x).map _) = _
    rw [List.map_map]
    rfl

theorem cellFold_eq_sanitize (x : PF) :
    MISSING_CODES.foldl (fun y c => if y = PF.val c then PF.nan else y) x =
      sanitizeCellSpec x := by
  rcases x with _ | _ | _ | q
  · simp [MISSING_CODES, sanitizeCellSpec]
  · simp [MISSING_CODES, sanitizeCellSpec]
  · simp [MISSING_CODES, sanitizeCellSpec]
  · by_cases h1 : q = -666666666
    · subst h1; simp [MISSING_CODES, sanitizeCellSpec]
    by_cases h2 : q = -999999999
    · subst h2; simp [MISSING_CODES, sanitizeCellSpec, h1]
    by_cases h3 : q = -888888888
    · subst h3; simp [MISSING_CODES, sanitizeCellSpec, h1, h2]
    by_cases h4 : q = -222222222
    · subst h4; simp [MISSING_CODES, sanitizeCellSpec, h1, h2, h3]
    by_cases h5 : q = -333333333
    · subst h5; simp [MISSING_CODES, sanitizeCellSpec, h1, h2, h3, h4]
    simp [MISSING_CODES, sanitizeCellSpec, h1, h2, h3, h4, h5]

theorem sanitizeCellSpec_idem (x : PF) :
    sanitizeCellSpec (sanitizeCellSpec x) = sanitizeCellSpec x := by
  by_cases h : MISSING_CODES.any (fun c => x = PF.val c)
  · have hx : sanitizeCellSpec x = PF.nan := by simp [sanitizeCellSpec, h]
    rw [hx]
    simp [sanitizeCellSpec, MISSING_CODES]
  · have hx : sanitizeCellSpec x = x := by simp [sanitizeCellSpec, h]
    rw [hx, hx]

/-- C5: with the default strategy, `clean_missing_values` replaces exactly
the numeric cells equal to one of the five sentinel codes by the missing
marker and alters no other cell (the result is `sanitizeSpec`, the
spec-side cell-by-cell description), and the operation is idempotent:
sanitizing an already-sanitized table changes nothing. -/
theorem clean_missing_values_sanitizes (df : Frame) (fv : Option PF) :
    clean_missing_values df "nan" fv = Except.ok (sanitizeSpec df) ∧
    clean_missing_values (sanitizeSpec df) "nan" fv =
      Except.ok (sanitizeSpec df) := by
  have hfold : ∀ d : Frame,
      MISSING_CODES.foldl replaceVal d = sanitizeSpec d := by
    intro d
    rw [replaceVal_foldl]
    unfold sanitizeSpec
    apply List.map_congr_left
    intro p _
    have : p.2.map (fun x => MISSING_CODES.foldl
        (fun y c => if y = PF.val c then PF.nan else y) x) =
        p.2.map sanitizeCellSpec :=
      List.map_congr_left (fun x _ => cellFold_eq_sanitize x)
    rw [this]
  have hidem : sanitizeSpec (sanitizeSpec df) = sanitizeSpec df := by
    unfold sanitizeSpec
    rw [List.map_map]
    apply List.map_congr_left
    intro p _
    show (p.1, (p.2.map sanitizeCellSpec).map sanitizeCellSpec) = _
    rw [List.map_map]
    exact congrArg (fun l => (p.1, l))
      (List.map_congr_left (fun x _ => sanitizeCellSpec_idem x))
  refine ⟨?_, ?_⟩
  · simp [clean_missing_values, hfold df]
  · simp [clean_missing_values, hfold (sanitizeSpec df), hidem]

theorem lookup_map_overwrite (c : String) (v : List PF) : ∀ df : Frame,
    (df.lookup c).isSome →
    (df.map (fun p => if p.1 = c then (p.1, v) else p)).lookup c = some v := by
  intro df
  induction df with
  | nil => intro h; simp at h
  | cons p rest ih =>
    rcases p with ⟨a, b⟩
    intro h
    by_cases hp : a = c
    · subst hp
      simp [List.lookup_cons]
    · have hbeq : (c == a) = false := beq_eq_false_iff_ne.mpr (Ne.symm hp)
      have h' : (rest.lookup c).isSome := by
        rw [List.lookup_cons] at h
        simpa [hbeq] using h
      simpa [hp, List.lookup_cons, hbeq] using ih h'

theorem getCol_setCol_self (df : Frame) (c : String) (v : List PF) :
    getCol (setCol df c v) c = some v := by
  unfold getCol setCol
  by_cases h : (df.lookup c).isSome
  · rw [if_pos h]
    exact lookup_map_overwrite c v df h
  · rw [if_neg h, List.lookup_append,
      Option.not_isSome_iff_eq_none.mp h]
    simp [List.lookup_cons]

theorem foldl_pick_const (q : ℚ) (f : PF → PF → PF)
    (hf : f (PF.val q) (PF.val q) = PF.val q) : ∀ t : List PF,
    (∀ x ∈ t, x = PF.val q) → t.foldl f (PF.val q) = PF.val q := by
  intro t
  induction t with
  | nil => intro _; rfl
  | cons x rest ih =>
    intro hall
    rw [List.foldl_cons, hall x (by simp), hf]
    exact ih (fun y hy => hall y (by simp [hy]))

theorem seriesMinMax_const (q : ℚ) (values : List PF) (hne : values ≠ [])
    (hconst : ∀ x ∈ values, x = PF.val q) :
    seriesMin values = PF.val q ∧ seriesMax values = PF.val q := by
  have hdrop : dropNan values = values := by
    rw [dropNan, List.filter_eq_self]
    intro x hx
    rw [hconst x hx]
    rfl
  rcases values with _ | ⟨h0, t⟩
  · exact absurd rfl hne
  · have hh0 : h0 = PF.val q := hconst h0 (by simp)
    have ht : ∀ x ∈ t, x = PF.val q := fun y hy => hconst y (by simp [hy])
    constructor
    · rw [seriesMin, hdrop]
      show t.foldl _ h0 = PF.val q
      rw [hh0]
      refine foldl_pick_const q _ ?_ t ht
      simp
    · rw [seriesMax, hdrop]
      show t.foldl _ h0 = PF.val q
      rw [hh0]
      refine foldl_pick_const q _ ?_ t ht
      simp

/-- C2 counterexample: min-max normalization of a constant column does NOT
raise any error — no `DegenerateInput` exists in the source — it silently
computes (v - min)/(max - min) = 0/0 = NaN for every row and returns
the table with an all-NaN output column. -/
theorem normalize_minmax_constant_counterexample :
    normalize_column [("x", [PF.val 5, PF.val 5])] "x" "minmax" none =
      Except.ok [("x", [PF.val 5, PF.val 5]),
        ("x_normalized", [PF.nan, PF.nan])] := by
  have h5 : (5 : ℚ) - 5 = 0 := by norm_num
  simp [normalize_column, getCol, List.lookup, seriesMin, seriesMax, dropNan,
    notNan, List.filter, setCol, pfSub, pfDiv, ite_self, h5, lt_irrefl]

/-- C2 amended: `normalize_column` never raises a degenerate-input error:
whenever the column exists it succeeds for every method (the only possible
failure in the source is a `KeyError` for a missing column), and for
min-max on a constant column the zero denominator silently produces the
missing marker (NaN) in every cell of the output column instead of an
error. -/
theorem normalize_column_no_degenerate_check (df : Frame)
    (column method : String) (out : Option String) (values : List PF)
    (hcol : getCol df column = some values) :
    (∃ res, normalize_column df column method out = Except.ok res) ∧
    (∀ q : ℚ, values ≠ [] → (∀ x ∈ values, x = PF.val q) →
      normalize_column df column "minmax" out =
        Except.ok (setCol df (out.getD (column ++ "_normalized"))
          (values.map (fun _ => PF.nan)))) := by
  constructor
  · simp only [normalize_column, hcol]
    split_ifs <;> exact ⟨_, rfl⟩
  · intro q hne hconst
    obtain ⟨hmn, hmx⟩ := seriesMinMax_const q values hne hconst
    have hmap : values.map (fun v => pfDiv (pfSub v (seriesMin values))
        (pfSub (seriesMax values) (seriesMin values))) =
        values.map (fun _ => PF.nan) := by
      rw [hmn, hmx]
      apply List.map_congr_left
      intro x hx
      rw [hconst x hx]
      simp [pfSub, pfDiv, sub_self, lt_irrefl]
    simp [normalize_column, hcol, hmap]

/-- C2 amended witness: the no-error statement and the constant-column
NaN outcome at the concrete one-column table [("x", [5, 5])]. -/
theorem normalize_column_no_degenerate_check_witness :
    (∃ res, normalize_column [("x", [PF.val 5, PF.val 5])] "x" "zscore" none =
      Except.ok res) ∧
    (∀ q : ℚ, ([PF.val 5, PF.val 5] : List PF) ≠ [] →
      (∀ x ∈ ([PF.val 5, PF.val 5] : List PF), x = PF.val q) →
      normalize_column [("x", [PF.val 5, PF.val 5])] "x" "minmax" none =
        Except.ok (setCol [("x", [PF.val 5, PF.val 5])]
          ((none : Option String).getD ("x" ++ "_normalized"))
          (([PF.val 5, PF.val 5] : List PF).map (fun _ => PF.nan)))) :=
  normalize_column_no_degenerate_check [("x", [PF.val 5, PF.val 5])] "x"
    "zscore" none [PF.val 5, PF.val 5] rfl

theorem rate_cell_zero_den (vn : PF) (perQ : ℚ) (hper : 0 < perQ)
    (vd : PF) (hzd : vd = PF.val 0 ∨ vd = PF.nan) :
    (match pfMul (pfDiv vn vd) (PF.val perQ) with
      | PF.inf => PF.nan | PF.ninf => PF.nan | y => y) = PF.nan ∧
    (match pfMul (pfDiv vn vd) (PF.val perQ) with
      | PF.inf => PF.val 0 | PF.ninf => PF.val 0 | y => y) =
      (if vd = PF.val 0 ∧ vn ≠ PF.val 0 ∧ vn ≠ PF.nan then PF.val 0
       else PF.nan) := by
  rcases hzd with h | h <;> subst h
  · rcases vn with _ | _ | _ | q
    · simp [pfDiv, pfMul]
    · simp [pfDiv, pfMul, hper, lt_irrefl]
    · simp [pfDiv, pfMul, hper, lt_irrefl]
    · rcases lt_trichotomy q 0 with hq | hq | hq
      · simp [pfDiv, pfMul, hper, lt_asymm hq, hq, hq.ne]
      · subst hq
        simp [pfDiv, pfMul, lt_irrefl]
      · simp [pfDiv, pfMul, hper, hq, Ne.symm hq.ne, lt_asymm hq]
  · rcases vn with _ | _ | _ | q <;> simp [pfDiv, pfMul]

/-- C4: for a row whose denominator cell is zero or missing, the
propagate-missing policy (handle_zero="nan") always yields the missing
marker; AMENDED for the zero policy: handle_zero="zero" only replaces the
±inf cells produced by nonzero/zero division, so the output cell is exactly
0 when the numerator is neither 0 nor missing, but it is the missing marker
(NaN, from 0/0 or x/NaN) when the numerator is 0 or missing or the
denominator is missing — not 0 for every numerator as claimed. -/
theorem calculate_rates_zero_denominator (df : Frame)
    (num den out : String) (per : ℤ) (i : Nat) (a b : List PF) (vn vd : PF)
    (hna : getCol df num = some a) (hdb : getCol df den = some b)
    (hvn : a.get? i = some vn) (hvd : b.get? i = some vd)
    (hper : 0 < per) (hzd : vd = PF.val 0 ∨ vd = PF.nan) :
    (∃ res, calculate_rates df num den out per "nan" = Except.ok res ∧
      getCell res out i = some PF.nan) ∧
    (∃ res, calculate_rates df num den out per "zero" = Except.ok res ∧
      getCell res out i =
        some (if vd = PF.val 0 ∧ vn ≠ PF.val 0 ∧ vn ≠ PF.nan
          then PF.val 0 else PF.nan)) := by
  have hperQ : (0 : ℚ) < (per : ℚ) := by exact_mod_cast hper
  have hvn' : a[i]? = some vn := by rw [← List.get?_eq_getElem?]; exact hvn
  have hvd' : b[i]? = some vd := by rw [← List.get?_eq_getElem?]; exact hvd
  have hzip : (List.zipWith pfDiv a b).get? i = some (pfDiv vn vd) := by
    rw [List.get?_eq_getElem?, List.getElem?_zipWith, hvn', hvd']
  have hmap : ((List.zipWith pfDiv a b).map
      (fun x => pfMul x (PF.val (per : ℚ)))).get? i =
      some (pfMul (pfDiv vn vd) (PF.val (per : ℚ))) := by
    rw [List.get?_map, hzip]
    rfl
  have hgc : ∀ L : List PF, getCell (setCol df out L) out i = L.get? i := by
    intro L
    rw [getCell, getCol_setCol_self]
    rfl
  have hevalN : calculate_rates df num den out per "nan" =
      Except.ok (setCol df out (replaceInf ((List.zipWith pfDiv a b).map
        (fun x => pfMul x (PF.val (per : ℚ)))) PF.nan)) := by
    simp [calculate_rates, hna, hdb]
  have hevalZ : calculate_rates df num den out per "zero" =
      Except.ok (setCol df out (replaceInf ((List.zipWith pfDiv a b).map
        (fun x => pfMul x (PF.val (per : ℚ)))) (PF.val 0))) := by
    simp [calculate_rates, hna, hdb]
  obtain ⟨hc1, hc2⟩ := rate_cell_zero_den vn (per : ℚ) hperQ vd hzd
  refine ⟨⟨_, hevalN, ?_⟩, ⟨_, hevalZ, ?_⟩⟩
  · rw [hgc, replaceInf, List.get?_map, hmap, Option.map_some']
    exact congrArg some hc1
  · rw [hgc, replaceInf, List.get?_map, hmap, Option.map_some']
    exact congrArg some hc2

/-- C4 witness: numerator 3, denominator 0, per=100 — the "nan" policy
yields NaN and the "zero" policy yields exactly 0 in the rate cell. -/
theorem calculate_rates_zero_denominator_witness :
    (∃ res, calculate_rates [("n", [PF.val 3]), ("d", [PF.val 0])]
        "n" "d" "r" 100 "nan" = Except.ok res ∧
      getCell res "r" 0 = some PF.nan) ∧
    (∃ res, calculate_rates [("n", [PF.val 3]), ("d", [PF.val 0])]
        "n" "d" "r" 100 "zero" = Except.ok res ∧
      getCell res "r" 0 =
        some (if PF.val 0 = PF.val 0 ∧ PF.val 3 ≠ PF.val 0 ∧
            PF.val 3 ≠ PF.nan then PF.val 0 else PF.nan)) :=
  calculate_rates_zero_denominator [("n", [PF.val 3]), ("d", [PF.val 0])]
    "n" "d" "r" 100 0 [PF.val 3] [PF.val 0] (PF.val 3) (PF.val 0)
    rfl rfl rfl rfl (by decide) (Or.inl rfl)

/-- C4 counterexample: with numerator 0 and denominator 0 under the
zero-on-undefined policy (handle_zero="zero"), the output cell is the
missing marker (0/0 = NaN is not an infinity, so the replacement leaves
it), NOT exactly 0 as the claim states for any numerator value. -/
theorem calculate_rates_zero_policy_counterexample :
    calculate_rates [("n", [PF.val 0]), ("d", [PF.val 0])] "n" "d" "r"
        100 "zero" =
      Except.ok [("n", [PF.val 0]), ("d", [PF.val 0]), ("r", [PF.nan])] := by
  simp [calculate_rates, getCol, List.lookup, setCol, replaceInf,
    pfDiv, pfMul, lt_irrefl]

theorem readF_append (h : FHeap) (f : Frame) (i : Nat) (hi : i < h.length) :
    readF (h ++ [f]) i = readF h i := by
  rw [readF, readF, List.getD_append h [f] [] i hi]

theorem readF_set_ne (h : FHeap) (j : Nat) (f : Frame) (i : Nat)
    (hij : j ≠ i) : readF (h.set j f) i = readF h i := by
  rw [readF, readF, List.getD_eq_getElem?_getD, List.getD_eq_getElem?_getD,
    List.getElem?_set_ne hij]

theorem writeF_fresh_pres (h : FHeap) (df res : Frame) (r : Nat)
    (hr : r < h.length) :
    readF (writeF (h ++ [df]) h.length res) r = readF h r := by
  rw [writeF, readF_set_ne _ _ _ _ (by omega)]
  exact readF_append _ _ _ hr

theorem set_last_self (x : Frame) : ∀ h : FHeap,
    (h ++ [x]).set h.length x = h ++ [x] := by
  intro h
  induction h with
  | nil => rfl
  | cons a t ih =>
    show a :: ((t ++ [x]).set t.length x) = a :: (t ++ [x])
    rw [ih]

theorem clean_h_pres (h : FHeap) (r : Nat) (hr : r < h.length)
    (strategy : String) (fv : Option PF) :
    readF (clean_missing_values_h h r strategy fv).1 r = readF h r := by
  unfold clean_missing_values_h
  cases hres : clean_missing_values (readF h r) strategy fv with
  | ok res =>
    simp only [allocF, hres]
    exact writeF_fresh_pres h _ res r hr
  | error e =>
    simp only [allocF, hres]
    exact readF_append h _ r hr

theorem rates_h_pres (h : FHeap) (r : Nat) (hr : r < h.length)
    (num den rn : String) (per : ℤ) (hz : String) :
    readF (calculate_rates_h h r num den rn per hz).1 r = readF h r := by
  unfold calculate_rates_h
  cases hres : calculate_rates (readF h r) num den rn per hz with
  | ok res =>
    simp only [allocF, hres]
    exact writeF_fresh_pres h _ res r hr
  | error e =>
    simp only [allocF, hres]
    exact readF_append h _ r hr

theorem normalize_column_h_facts (h : FHeap) (r : Nat) (col meth : String)
    (oc : Option String) (n : Nat) (hn : n ≤ h.length) :
    (∀ i, i < n → readF (normalize_column_h h r col meth oc).1 i = readF h i) ∧
    n ≤ (normalize_column_h h r col meth oc).1.length ∧
    (∀ r', (normalize_column_h h r col meth oc).2 = Except.ok r' → n ≤ r') := by
  unfold normalize_column_h
  cases hres : normalize_column (readF h r) col meth oc with
  | ok res =>
    simp only [allocF, hres]
    refine ⟨?_, ?_, ?_⟩
    · intro i hi
      rw [writeF, readF_set_ne _ _ _ _ (by omega)]
      exact readF_append _ _ _ (by omega)
    · simp [writeF, List.length_set, List.length_append]
      omega
    · intro r' hr'
      simp only [Except.ok.injEq] at hr'
      omega
  | error e =>
    simp only [allocF, hres]
    refine ⟨?_, ?_, ?_⟩
    · intro i hi
      exact readF_append _ _ _ (by omega)
    · simp [List.length_append]
      omega
    · intro r' hr'
      simp at hr'

theorem normLoop_h_facts (cols : List String) : ∀ (h : FHeap) (r n : Nat),
    n ≤ h.length → n ≤ r →
    (∀ i, i < n → readF (normLoop_h h r cols).1 i = readF h i) ∧
    n ≤ (normLoop_h h r cols).1.length ∧
    (∀ r', (normLoop_h h r cols).2 = Except.ok r' → n ≤ r') := by
  induction cols with
  | nil =>
    intro h r n hn hr
    refine ⟨fun i _ => rfl, hn, ?_⟩
    intro r' hr'
    simp only [normLoop_h, Except.ok.injEq] at hr'
    omega
  | cons c rest ih =>
    intro h r n hn hr
    unfold normLoop_h
    obtain ⟨hp, hl, hok⟩ := normalize_column_h_facts h r c "minmax" none n hn
    rcases hx : normalize_column_h h r c "minmax" none with ⟨h', x⟩
    rw [hx] at hp hl hok
    cases x with
    | ok r' =>
      have hr2 : n ≤ r' := hok r' rfl
      obtain ⟨hp2, hl2, hok2⟩ := ih h' r' n hl hr2
      exact ⟨fun i hi => (hp2 i hi).trans (hp i hi), hl2, hok2⟩
    | error e =>
      refine ⟨hp, hl, ?_⟩
      intro r' h''
      simp at h''

theorem create_index_h_pres (h : FHeap) (r : Nat) (hr : r < h.length)
    (comps : List (String × ℚ)) (iname : String) (nrm : Bool) :
    readF (create_index_h h r comps iname nrm).1 r = readF h r := by
  unfold create_index_h
  cases nrm with
  | false =>
    simp only [allocF, Bool.false_eq_true, if_false]
    cases hix : indexLoop (readF (h ++ [readF h r]) h.length)
        (List.replicate (numRows (readF (h ++ [readF h r]) h.length))
          (PF.val 0)) comps false
        ((comps.map (fun p => p.2)).sum) with
    | ok v =>
      simp only [hix]
      exact writeF_fresh_pres h _ _ r hr
    | error e =>
      simp only [hix]
      exact readF_append h _ r hr
  | true =>
    simp only [allocF, if_true]
    obtain ⟨hp, hl, hok⟩ := normLoop_h_facts (comps.map (fun p => p.1))
      (h ++ [readF h r]) h.length (r + 1)
      (by simp [List.length_append]; omega) (by omega)
    split
    · rename_i h2 e heq
      rw [heq] at hp
      exact (hp r (by omega)).trans (readF_append h _ r hr)
    · rename_i h2 r2 heq
      rw [heq] at hp hok
      have hr2 : r + 1 ≤ r2 := hok r2 rfl
      have hpres2 : readF h2 r = readF h r :=
        (hp r (by omega)).trans (readF_append h _ r hr)
      split
      · exact hpres2
      · rw [writeF, readF_set_ne _ _ _ _ (by omega)]
        exact hpres2

/-- C9: every DataTransformer table operation begins with `df = df.copy()`
and writes only the copy: the caller's frame (heap slot r) holds exactly
the same value after `clean_missing_values`, `calculate_rates`,
`normalize_column` and `create_index`, for every argument combination and
whether or not the operation succeeds. -/
theorem transformer_ops_preserve_input (h : FHeap) (r : Nat)
    (hr : r < h.length) (strategy : String) (fv : Option PF)
    (num den rn : String) (per : ℤ) (hz : String) (col meth : String)
    (oc : Option String) (comps : List (String × ℚ)) (iname : String)
    (nrm : Bool) :
    readF (clean_missing_values_h h r strategy fv).1 r = readF h r ∧
    readF (calculate_rates_h h r num den rn per hz).1 r = readF h r ∧
    readF (normalize_column_h h r col meth oc).1 r = readF h r ∧
    readF (create_index_h h r comps iname nrm).1 r = readF h r := by
  refine ⟨clean_h_pres h r hr strategy fv,
    rates_h_pres h r hr num den rn per hz, ?_,
    create_index_h_pres h r hr comps iname nrm⟩
  obtain ⟨hp, _, _⟩ := normalize_column_h_facts h r col meth oc (r + 1)
    (by omega)
  exact hp r (by omega)

/-- C9 witness: input preservation at a concrete one-frame heap. -/
theorem transformer_ops_preserve_input_witness :
    readF (clean_missing_values_h [[("x", [PF.val 1])]] 0 "nan" none).1 0 =
      readF [[("x", [PF.val 1])]] 0 ∧
    readF (calculate_rates_h [[("x", [PF.val 1])]] 0 "x" "x" "r" 100
        "nan").1 0 = readF [[("x", [PF.val 1])]] 0 ∧
    readF (normalize_column_h [[("x", [PF.val 1])]] 0 "x" "minmax"
        none).1 0 = readF [[("x", [PF.val 1])]] 0 ∧
    readF (create_index_h [[("x", [PF.val 1])]] 0 [("x", 1)] "idx"
        true).1 0 = readF [[("x", [PF.val 1])]] 0 :=
  transformer_ops_preserve_input [[("x", [PF.val 1])]] 0 (by decide)
    "nan" none "x" "x" "r" 100 "nan" "x" "minmax" none [("x", 1)] "idx" true

/-- C10: an unrecognized normalization method falls through every branch of
`normalize_column`: no error is raised (provided the column itself exists)
and the returned frame is exactly the input frame — a fresh copy with no
output column added. -/
theorem normalize_column_unknown_method_noop (h : FHeap) (r : Nat)
    (col meth : String) (oc : Option String) (values : List PF)
    (hcol : getCol (readF h r) col = some values)
    (hm1 : meth ≠ "minmax") (hm2 : meth ≠ "zscore") (hm3 : meth ≠ "robust") :
    normalize_column_h h r col meth oc =
      (h ++ [readF h r], Except.ok h.length) := by
  have hpure : normalize_column (readF h r) col meth oc =
      Except.ok (readF h r) := by
    simp [normalize_column, hcol, hm1, hm2, hm3]
  unfold normalize_column_h
  simp only [allocF, hpure]
  rw [writeF, set_last_self]

/-- C10 witness: method "median" (not among the three recognized ones) on a
one-column table returns the untouched table with no error. -/
theorem normalize_column_unknown_method_noop_witness :
    normalize_column_h [[("x", [PF.val 1])]] 0 "x" "median" none =
      ([[("x", [PF.val 1])]] ++ [readF [[("x", [PF.val 1])]] 0],
        Except.ok ([[("x", [PF.val 1])]] : FHeap).length) :=
  normalize_column_unknown_method_noop [[("x", [PF.val 1])]] 0 "x" "median"
    none [PF.val 1] rfl (by decide) (by decide) (by decide)

end Census
